import Mathlib

/-!
Verification of the B2F (Winlink 2000 forwarding protocol) client core of the
wl2k-go repository, against its natural-language specification.

The Go source is shallowly embedded: pure functions become Lean functions on
the same data; strings are represented through their character lists (all the
protocol strings involved are ASCII, so Go byte indexing and Lean character
indexing agree); Go machine integers that never overflow in the modelled code
are represented as Int; fallible functions return an explicit outcome type;
the statements executed on a connection or on the file system are recorded as
explicit action traces.
-/

/-! ### Go string primitives

Executable models of the Go standard-library string operations used by the
embedded code, defined by structural recursion over character lists so that
concrete instances reduce inside the kernel. -/

/-- Go bytewise lexicographic string comparison (the built-in `<` on Go
strings), on character lists; code points stand in for bytes (identical on
ASCII data). -/
def charsLess : List Char → List Char → Bool
  | [], [] => false
  | [], _ :: _ => true
  | _ :: _, [] => false
  | a :: as, b :: bs =>
    if a.toNat < b.toNat then true
    else if b.toNat < a.toNat then false
    else charsLess as bs

/-- Go string comparison lifted to Lean strings. -/
def goStrLess (a b : String) : Bool := charsLess a.toList b.toList

/-- Whether the second list is a prefix of the first (helper for the model of
Go strings.Contains). -/
def hasPrefixB : List Char → List Char → Bool
  | _, [] => true
  | [], _ :: _ => false
  | a :: as, b :: bs => a = b && hasPrefixB as bs

/-- Whether the second list occurs as a contiguous infix of the first (model
of Go strings.Contains on character lists). -/
def hasInfixB : List Char → List Char → Bool
  | [], pat => pat.isEmpty
  | a :: as, pat => hasPrefixB (a :: as) pat || hasInfixB as pat

/-- Model of Go strings.Contains. -/
def goContains (s sub : String) : Bool := hasInfixB s.toList sub.toList

/-- Model of Go strings.Split with separator a single space: splits around
every space character; the empty string yields one empty field. -/
def goSplitSpace : List Char → List (List Char)
  | [] => [[]]
  | c :: rest =>
    if c = ' ' then [] :: goSplitSpace rest
    else match goSplitSpace rest with
      | [] => [[c]]
      | f :: fs => (c :: f) :: fs

/-- Numeric value of a list of decimal digit characters. -/
def digitsVal (ds : List Char) : Nat :=
  ds.foldl (fun n c => n * 10 + (c.toNat - 48)) 0

/-- Model of Go strconv.Atoi: optional sign followed by at least one decimal
digit; any other input is a syntax error (none). The callers embedded here
discard the error, in which case Go yields the zero value 0. -/
def atoi (cs : List Char) : Option Int :=
  let signed : Bool × List Char :=
    match cs with
    | '-' :: t => (true, t)
    | '+' :: t => (false, t)
    | t => (false, t)
  if signed.2.isEmpty then none
  else if signed.2.all Char.isDigit then
    some (if signed.1 then -(digitsVal signed.2 : Int) else (digitsVal signed.2 : Int))
  else none

/-- A single-quote character as a string (used in Go error message formatting
with the %c verb). -/
def squote : String := String.singleton (Char.ofNat 39)

/-! ### Proposal data model (fbb/proposal.go) -/

/-- The Proposal struct of package fbb. PropCode and ProposalAnswer are single
bytes in Go, modelled as characters; the ints are modelled as Int. -/
structure Proposal where
  code : Char
  msgType : String
  mid : String
  answer : Char
  title : String
  offset : Int
  sent : Bool
  size : Int
  compressedData : List Nat
  compressedSize : Int
deriving DecidableEq

/-- The zero value of the Proposal struct in Go. -/
def emptyProposal : Proposal :=
  { code := Char.ofNat 0
    msgType := ""
    mid := ""
    answer := Char.ofNat 0
    title := ""
    offset := 0
    sent := false
    size := 0
    compressedData := []
    compressedSize := 0 }

/-- Proposal.precedence from fbb/proposal.go: the priority level derived from
title markers; lower means more urgent (Flash 0, Immediate 1, Priority 2,
Routine 3). -/
def Proposal.precedence (p : Proposal) : Int :=
  if goContains p.title "//WL2K Z/" then 0
  else if goContains p.title "//WL2K O/" then 1
  else if goContains p.title "//WL2K P/" then 2
  else 3

/-- Outcome of the proposal parsing functions. Go mutates the proposal through
a pointer and returns an error value; the model returns the updated proposal
together with the error message if any. A Go runtime panic (index out of
range) is a separate outcome. -/
inductive ParseResult where
  | ok : Proposal → ParseResult
  | fail : String → Proposal → ParseResult
  | panics : ParseResult
deriving DecidableEq

/-- The indexed loop over the fields of parseB2Proposal: index 0 is the
message type (length 1..2 and equal to EM or CM), 1 the MID, 2 the size, 3
the compressed size, 4 is skipped, and any further field (index 5 and beyond)
is an error. fullParts is the complete field list, used only for the error
message (Go formats the whole slice with %+v). -/
def parseB2Fields (fullParts : List (List Char)) : Nat → List (List Char) → Proposal → ParseResult
  | _, [], prop => ParseResult.ok prop
  | i, part :: rest, prop =>
    match i with
    | 0 =>
      if part.length < 1 ∨ part.length > 2 then ParseResult.fail "Malformed proposal 0" prop
      else if ¬(String.mk part = "EM" ∨ String.mk part = "CM") then
        ParseResult.fail ("Expected message type CM or EM, but found " ++ String.mk part) prop
      else parseB2Fields fullParts 1 rest { prop with msgType := String.mk part }
    | 1 => parseB2Fields fullParts 2 rest { prop with mid := String.mk part }
    | 2 => parseB2Fields fullParts 3 rest { prop with size := (atoi part).getD 0 }
    | 3 => parseB2Fields fullParts 4 rest { prop with compressedSize := (atoi part).getD 0 }
    | 4 => parseB2Fields fullParts 5 rest prop
    | _ + 5 =>
      ParseResult.fail
        ("Too many parts in proposal: [" ++
          String.intercalate " " (fullParts.map String.mk) ++ "]") prop

/-- parseB2Proposal from fbb/proposal.go: parses a type C or D proposal line
of the form FC EM MID size compressedSize 0. -/
def parseB2Proposal (line : String) (prop : Proposal) : ParseResult :=
  let cs := line.toList
  if cs.length < 4 then ParseResult.fail "Unexpected end of proposal line" prop
  else if ¬(cs.get? 1 = some 'C' ∨ cs.get? 1 = some 'D') then
    ParseResult.fail "Not a type C or D proposal" prop
  else
    let parts := goSplitSpace (cs.drop 3)
    if parts.length < 5 then
      ParseResult.fail ("Malformed proposal: " ++ String.mk (cs.drop 2)) prop
    else parseB2Fields parts 0 parts prop

/-- parseProposal from fbb/proposal.go. An empty line or a line not starting
with F parses as a no-op; the code byte is the second byte (Go panics when
absent); codes B and A fall through an unimplemented TODO case with a nil
error; codes C and D delegate to parseB2Proposal; every other code is the
unsupported-proposal-code error. -/
def parseProposal (line : String) (prop : Proposal) : ParseResult :=
  match line.toList with
  | [] => ParseResult.ok prop
  | c0 :: rest =>
    if c0 ≠ 'F' then ParseResult.ok prop
    else match rest with
      | [] => ParseResult.panics
      | c1 :: _ =>
        let prop1 := { prop with code := c1 }
        if c1 = 'B' ∨ c1 = 'A' then ParseResult.ok prop1
        else if c1 = 'C' ∨ c1 = 'D' then parseB2Proposal line prop1
        else
          ParseResult.fail
            ("Unsupported proposal code " ++ squote ++ String.singleton c1 ++ squote) prop1

/-! ### Proposal sorting (fbb/session.go) -/

/-- bySize.Less from fbb/session.go: ascending compressed size, with the MID
(Go string comparison) as tiebreak. -/
def bySizeLess (a b : Proposal) : Bool :=
  if a.compressedSize ≠ b.compressedSize then decide (a.compressedSize < b.compressedSize)
  else goStrLess a.mid b.mid

/-- byPrecedence.Less from fbb/session.go: ascending precedence. -/
def byPrecedenceLess (a b : Proposal) : Bool :=
  decide (a.precedence < b.precedence)

/-- The non-strict order corresponding to bySize.Less: Go sort.Sort(bySize(..))
produces a permutation in which no later element is Less than an earlier
one. -/
def sizeLE (a b : Proposal) : Bool := !bySizeLess b a

/-- The non-strict order corresponding to byPrecedence.Less. -/
def precLE (a b : Proposal) : Bool := !byPrecedenceLess b a

/-- sortProposals from fbb/session.go: sort first by ascending size (Go
sort.Sort with bySize, modelled as a sort producing a sizeLE-ordered
permutation), then stable sort by ascending precedence (Go sort.Stable with
byPrecedence, modelled by the stable List.mergeSort). -/
def sortProposals (props : List Proposal) : List Proposal :=
  (props.mergeSort sizeLE).mergeSort precLE

/-! ### Session model (fbb/session.go) -/

/-- The error values that the embedded session code distinguishes: io.EOF,
io.ErrUnexpectedEOF, net.ErrClosed, the package's ErrConnLost, and every other
error, carried with its message. errors.Is is modelled by equality. -/
inductive GoError where
  | eof
  | unexpectedEOF
  | netClosed
  | connLost
  | other : String → GoError
deriving DecidableEq

/-- The Error() string of a GoError, as printed by the %s verb. -/
def GoError.message : GoError → String
  | GoError.eof => "EOF"
  | GoError.unexpectedEOF => "unexpected EOF"
  | GoError.netClosed => "use of closed network connection"
  | GoError.connLost => "connection lost"
  | GoError.other m => m

/-- TrafficStats from fbb/session.go. -/
structure TrafficStats where
  received : List String
  sent : List String
deriving DecidableEq

/-- The zero value of TrafficStats (the named return value of Exchange). -/
def emptyStats : TrafficStats := { received := [], sent := [] }

/-- The robust-mode settings RobustAuto, RobustForced, RobustDisabled. -/
inductive RobustMode where
  | auto
  | forced
  | disabled
deriving DecidableEq

/-- Which of the two turn handlers runs in a turn of the Exchange loop. -/
inductive TurnKind where
  | outbound
  | inbound
deriving DecidableEq

/-- Observable steps of one Exchange call: the Prepare call on the mailbox
handler, SetRobust calls, the handshake, each executed turn, and the
SetDeadline / write / Close operations on the connection. -/
inductive SessAction where
  | prepare
  | setRobust : Bool → SessAction
  | handshake
  | turn : TurnKind → SessAction
  | setDeadline : Nat → SessAction
  | write : String → SessAction
  | close
deriving DecidableEq

/-- The Session fields that the Exchange control flow embedded here reads or
writes. The mailbox handler pointer is reduced to its nil-ness. -/
structure Session where
  master : Bool
  quitSent : Bool
  quitReceived : Bool
  hasHandler : Bool
  robustMode : RobustMode
  localFW : List String
  trafficStats : TrafficStats
deriving DecidableEq

/-- Session.Done from fbb/session.go: true if either party has quit. -/
def Session.Done (s : Session) : Bool := s.quitReceived || s.quitSent

/-- The environment of one Exchange call: the feature flags and the results of
the steps whose own code (handshake, handleOutbound, handleInbound, the
transport) is outside the embedded fragment. outboundRes/inboundRes give, for
the i-th loop iteration, the (quit flag, error) pair the handler returns. -/
structure ExchangeEnv where
  fwAuxOnlyExperiment : Bool
  connRobust : Bool
  prepareRes : Option GoError
  handshakeRes : Option GoError
  outboundRes : Nat → Bool × Option GoError
  inboundRes : Nat → Bool × Option GoError
  closeRes : Option GoError

/-- The turn loop of Session.Exchange:
for myTurn := !s.master; !s.Done(); myTurn = !myTurn, running handleOutbound
on the local turn and handleInbound otherwise, stopping on the first error.
The fuel argument bounds the number of iterations modelled; none means the
loop was still running when the fuel ran out. Returns the final session, the
error, and the kinds of the executed turns in order. -/
def turnLoop (env : ExchangeEnv) : Nat → Nat → Bool → Session →
    Option (Session × Option GoError × List TurnKind)
  | fuel, i, myTurn, s =>
    if Session.Done s then some (s, none, [])
    else match fuel with
      | 0 => none
      | fuel' + 1 =>
        let r := if myTurn then env.outboundRes i else env.inboundRes i
        let s' := if myTurn then { s with quitSent := r.1 } else { s with quitReceived := r.1 }
        let k := if myTurn then TurnKind.outbound else TurnKind.inbound
        match r.2 with
        | some e => some (s', some e, [k])
        | none =>
          match turnLoop env fuel' (i + 1) (!myTurn) s' with
          | none => none
          | some (s2, e2, ks) => some (s2, e2, k :: ks)

/-- The deferred closure of Session.Exchange: on success just close; io.EOF,
io.ErrUnexpectedEOF and net.ErrClosed are replaced by ErrConnLost with no
emission; any other error is echoed to the peer as a *** line under a
one-minute write deadline; the connection is always closed last. -/
def exchangeDeferred (err : Option GoError) : Option GoError × List SessAction :=
  match err with
  | none => (none, [SessAction.close])
  | some e =>
    if e = GoError.eof ∨ e = GoError.unexpectedEOF then (some GoError.connLost, [SessAction.close])
    else if e = GoError.netClosed then (some GoError.connLost, [SessAction.close])
    else
      (some e,
       [SessAction.setDeadline 60, SessAction.write ("*** " ++ GoError.message e ++ "\r\n"), SessAction.close])

/-- The FW_AUX_ONLY_EXPERIMENT adjustment at the top of Exchange: when the
flag is set and there is more than one local forwarder, drop mycall (the first
entry). -/
def fwAdjust (env : ExchangeEnv) (s : Session) : Session :=
  if env.fwAuxOnlyExperiment ∧ 1 < s.localFW.length then { s with localFW := s.localFW.drop 1 }
  else s

/-- The continuation of the Exchange body after the turn loop: a turn error
returns the session stats and that error; normal loop exit returns the stats
and the result of the explicit conn.Close() call. -/
def exchangeAfterLoop (env : ExchangeEnv) (preActs : List SessAction) :
    Option (Session × Option GoError × List TurnKind) →
    Option (TrafficStats × Option GoError × Session × List SessAction × Bool)
  | none => none
  | some (s2, some e, ks) =>
    some (s2.trafficStats, some e, s2,
      preActs ++ [SessAction.handshake] ++ ks.map SessAction.turn, env.connRobust)
  | some (s2, none, ks) =>
    some (s2.trafficStats, env.closeRes, s2,
      preActs ++ [SessAction.handshake] ++ ks.map SessAction.turn ++ [SessAction.close],
      env.connRobust)

/-- The body of Session.Exchange between the deferred closure and the returns:
Prepare on the handler (if any), SetRobust according to the robust-mode
setting (if the connection supports it), the handshake, the turn loop, and on
normal completion the explicit conn.Close() whose error is the return value.
Returns the stats, the error, the final session, the action trace, and
whether the deferred SetRobust(false) was registered. -/
def exchangeBody (env : ExchangeEnv) (fuel : Nat) (s : Session) :
    Option (TrafficStats × Option GoError × Session × List SessAction × Bool) :=
  let prepActs : List SessAction := if s.hasHandler then [SessAction.prepare] else []
  if s.hasHandler ∧ env.prepareRes.isSome then some (emptyStats, env.prepareRes, s, prepActs, false)
  else
    let robActs : List SessAction :=
      if env.connRobust then [SessAction.setRobust (s.robustMode ≠ RobustMode.disabled)] else []
    match env.handshakeRes with
    | some e =>
      some (emptyStats, some e, s, prepActs ++ robActs ++ [SessAction.handshake], env.connRobust)
    | none =>
      exchangeAfterLoop env (prepActs ++ robActs) (turnLoop env fuel 0 (!s.master) s)

/-- Running the deferred statements of Exchange over the body result: the
deferred SetRobust(false) when it was registered, then the deferred
error-translating closure. -/
def exchangeFinish :
    Option (TrafficStats × Option GoError × Session × List SessAction × Bool) →
    Option (TrafficStats × Option GoError × Session × List SessAction)
  | none => none
  | some (stats, err, s2, acts, robustReg) =>
    some (stats, (exchangeDeferred err).1, s2,
      acts ++ (if robustReg then [SessAction.setRobust false] else []) ++ (exchangeDeferred err).2)

/-- Session.Exchange from fbb/session.go: a completed session (Done) returns
immediately with zero stats, a nil error and no effect at all; otherwise the
FW_AUX adjustment runs, then the body, then the deferred statements. -/
def Exchange (env : ExchangeEnv) (fuel : Nat) (s : Session) :
    Option (TrafficStats × Option GoError × Session × List SessAction) :=
  if Session.Done s then some (emptyStats, none, s, [])
  else exchangeFinish (exchangeBody env fuel (fwAdjust env s))

/-- The turn kind recorded by an action, if it is a turn. -/
def actionTurn : SessAction → Option TurnKind
  | SessAction.turn k => some k
  | _ => none

/-- The turns executed during an Exchange call, in order. -/
def exchangeTurns (r : Option (TrafficStats × Option GoError × Session × List SessAction)) :
    Option (List TurnKind) :=
  r.map (fun x => x.2.2.2.filterMap actionTurn)

/-! ### Mailbox directory handler (mailbox/mailbox.go) -/

/-- Modelled from the spec: an Address is a callsign with an optional
email-like part; the session and mailbox code embedded here treats it as an
opaque value, so only its textual form is kept. -/
structure Address where
  addr : String
deriving DecidableEq

/-- ASCII lower-casing of a character (helper for case-insensitive header
keys). -/
def lowerChar (c : Char) : Char :=
  if 'A' ≤ c ∧ c ≤ 'Z' then Char.ofNat (c.toNat + 32) else c

/-- ASCII lower-casing of a header key. -/
def lowerKey (s : String) : String := String.mk (s.toList.map lowerChar)

/-- Case-insensitive header key comparison. -/
def keyEq (a b : String) : Bool := lowerKey a = lowerKey b

/-- Modelled from the spec: the Message header is an ordered,
case-insensitive-keyed, multi-valued header list; Get returns the first value
set for the key, or the empty string. -/
def headerGet (h : List (String × String)) (k : String) : String :=
  match h.find? (fun kv => keyEq kv.1 k) with
  | some kv => kv.2
  | none => ""

/-- Modelled from the spec: Del removes every value of the key. -/
def headerDel (h : List (String × String)) (k : String) : List (String × String) :=
  h.filter (fun kv => !keyEq kv.1 k)

/-- Modelled from the spec: a Message is an ordered header list plus a binary
body; only the header part is touched by the embedded mailbox code. -/
structure Message where
  header : List (String × String)
  body : List Nat
deriving DecidableEq

/-- Modelled from the spec: MID() returns the value of the Mid header. -/
def Message.MID (m : Message) : String := headerGet m.header "Mid"

/-- The private-header removal step of DirHandler.GetOutbound. -/
def delPrivateHeaders (m : Message) : Message :=
  { m with header := headerDel (headerDel (headerDel m.header "X-P2POnly") "X-FilePath") "X-Unread" }

/-- DirHandler.GetOutbound from mailbox/mailbox.go. The outbox contents stand
in for LoadMessageDir; deferredQ is membership in the handler's deferred set;
isOnlyReceiver stands for (*fbb.Message).IsOnlyReceiver, whose code is outside
the embedded fragment. Deferred messages are skipped; with a non-empty
forwarder list a message is delivered (unchanged) exactly when it is
only-addressed to one of the forwarders; with an empty forwarder list,
X-P2POnly messages are skipped and delivered messages have the private
headers X-P2POnly, X-FilePath and X-Unread removed. -/
def GetOutbound (deferredQ : String → Bool) (isOnlyReceiver : Message → Address → Bool) :
    List Message → List Address → List Message
  | [], _ => []
  | m :: rest, fws =>
    if deferredQ (Message.MID m) then GetOutbound deferredQ isOnlyReceiver rest fws
    else if 0 < fws.length then
      (if fws.any (isOnlyReceiver m) then [m] else []) ++ GetOutbound deferredQ isOnlyReceiver rest fws
    else if fws.length = 0 ∧ headerGet m.header "X-P2POnly" = "true" then
      GetOutbound deferredQ isOnlyReceiver rest fws
    else delPrivateHeaders m :: GetOutbound deferredQ isOnlyReceiver rest fws

/-! ### rigctld TCP rig (rigcontrol/hamlib/rigctld.go) -/

/-- The TCPRig fields touched by dial: the textproto connection and the raw
TCP connection, each reduced to an abstract handle. The mutex is left out:
dial is a single critical section. -/
structure TCPRigState where
  conn : Option Nat
  tcpConn : Option Nat
  addr : String
deriving DecidableEq

/-- Observable steps of TCPRig.dial: closing the old connection and the
debug fmt.Printf. -/
inductive RigAction where
  | closeConn
  | printOut : String → RigAction
deriving DecidableEq

/-- TCPRig.dial from rigcontrol/hamlib/rigctld.go: closes any previous
connection, prints the debug string, then executes the unconditional
return err with err never assigned (nil). The net.DialTimeout call and the
assignments to tcpConn and conn that follow the return are unreachable and
have no counterpart here. -/
def dial (r : TCPRigState) : Option GoError × TCPRigState × List RigAction :=
  (none, r,
    (if r.conn.isSome then [RigAction.closeConn] else []) ++ [RigAction.printOut "Koitetaan"])

/-! ### Shared concrete instances for witnesses and counterexamples -/

/-- A concrete environment: no experiments, no robust transport, all steps
succeed, each handler turn immediately reports quit. -/
def envDemo : ExchangeEnv :=
  { fwAuxOnlyExperiment := false
    connRobust := false
    prepareRes := none
    handshakeRes := none
    outboundRes := fun _ => (true, none)
    inboundRes := fun _ => (true, none)
    closeRes := none }

/-- A concrete session whose previous exchange completed with a sent quit. -/
def sessDone : Session :=
  { master := false, quitSent := true, quitReceived := false, hasHandler := true,
    robustMode := RobustMode.auto, localFW := ["LA5NTA"], trafficStats := emptyStats }

/-- A concrete fresh session configured as master. -/
def sessLive : Session :=
  { master := true, quitSent := false, quitReceived := false, hasHandler := true,
    robustMode := RobustMode.auto, localFW := ["LA5NTA"], trafficStats := emptyStats }

/-- envDemo with a Prepare step failing with io.EOF. -/
def envEOFDemo : ExchangeEnv := { envDemo with prepareRes := some GoError.eof }

/-- envDemo with a Prepare step failing with an ordinary error. -/
def envBoomDemo : ExchangeEnv := { envDemo with prepareRes := some (GoError.other "boom") }

/-! ### Claim C7 — Proposal.precedence -/

/-- Claim C7: for every Proposal, precedence() returns 0 (Flash) if the title
contains the Z marker, otherwise 1 (Immediate) for the O marker, otherwise 2
(Priority) for the P marker, otherwise 3 (Routine). -/
theorem precedence_spec (p : Proposal) :
    (goContains p.title "//WL2K Z/" = true → p.precedence = 0) ∧
    (goContains p.title "//WL2K Z/" = false → goContains p.title "//WL2K O/" = true →
      p.precedence = 1) ∧
    (goContains p.title "//WL2K Z/" = false → goContains p.title "//WL2K O/" = false →
      goContains p.title "//WL2K P/" = true → p.precedence = 2) ∧
    (goContains p.title "//WL2K Z/" = false → goContains p.title "//WL2K O/" = false →
      goContains p.title "//WL2K P/" = false → p.precedence = 3) := by
  refine ⟨?_, ?_, ?_, ?_⟩ <;> intros <;> simp [Proposal.precedence, *]

/-- Witness for C7: the four precedence classes at concrete titles. -/
theorem precedence_spec_witness :
    Proposal.precedence { emptyProposal with title := "x//WL2K Z/a" } = 0 ∧
    Proposal.precedence { emptyProposal with title := "x//WL2K O/a" } = 1 ∧
    Proposal.precedence { emptyProposal with title := "x//WL2K P/a" } = 2 ∧
    Proposal.precedence { emptyProposal with title := "hello" } = 3 :=
  ⟨(precedence_spec _).1 (by decide),
   (precedence_spec _).2.1 (by decide) (by decide),
   (precedence_spec _).2.2.1 (by decide) (by decide) (by decide),
   (precedence_spec _).2.2.2 (by decide) (by decide) (by decide)⟩

/-! ### Claim C4 — parseProposal on FA/FB lines -/

/-- Claim C4 counterexample: parsing a basic (FB) proposal line returns a nil
error and not the unsupported-proposal-code error the claim asserts: the
FA/FB cases are an empty TODO branch. -/
theorem parseProposal_FB_counterexample :
    parseProposal "FB EM TJKYEIMMHSRB 527 123 0" emptyProposal =
      ParseResult.ok { emptyProposal with code := 'B' } := by decide

/-- Claim C4 amended: for every proposal line whose first two characters are
FB (basic) or FA (compressed ASCII), parseProposal returns a NIL error and
only records the code byte (the cases are unimplemented TODO branches); the
unsupported-proposal-code error is reserved for codes other than B, A, C, D. -/
theorem parseProposal_basic_ascii (rest : List Char) (prop : Proposal) :
    parseProposal (String.mk ('F' :: 'B' :: rest)) prop =
      ParseResult.ok { prop with code := 'B' } ∧
    parseProposal (String.mk ('F' :: 'A' :: rest)) prop =
      ParseResult.ok { prop with code := 'A' } := by
  constructor <;> simp [parseProposal, String.toList]

/-! ### Claim C9 — parseB2Proposal discards strconv.Atoi errors -/

/-- Claim C9 counterexample: a type C proposal line with six space-separated
fields whose size field is not a valid decimal integer is answered with a
too-many-parts error, not the nil error the claim asserts for every line with
at least five fields. -/
theorem parseB2Proposal_sixfields_counterexample :
    parseB2Proposal "FC EM MID12 abc 12 0 x" emptyProposal =
      ParseResult.fail "Too many parts in proposal: [EM MID12 abc 12 0 x]"
        { emptyProposal with
          msgType := "EM"
          mid := "MID12"
          size := 0
          compressedSize := 12 } := by
  decide

/-- Claim C9 amended: for every C- or D-type proposal line with exactly five
space-separated fields whose first field is a valid message type (EM or CM),
a size or compressedSize field that is not a valid decimal integer is
silently recorded as 0 (the strconv.Atoi error is discarded) and
parseB2Proposal returns a nil error, never a parse error. -/
theorem parseB2Proposal_atoi_discarded (line : String) (prop : Proposal)
    (p0 p1 p2 p3 p4 : List Char)
    (hlen : 4 ≤ line.toList.length)
    (hcd : line.toList.get? 1 = some 'C' ∨ line.toList.get? 1 = some 'D')
    (hsplit : goSplitSpace (line.toList.drop 3) = [p0, p1, p2, p3, p4])
    (hp0 : String.mk p0 = "EM" ∨ String.mk p0 = "CM")
    (hbad : atoi p2 = none ∨ atoi p3 = none) :
    parseB2Proposal line prop =
      ParseResult.ok { prop with
        msgType := String.mk p0
        mid := String.mk p1
        size := (atoi p2).getD 0
        compressedSize := (atoi p3).getD 0 } ∧
    (atoi p2 = none → (atoi p2).getD 0 = 0) ∧
    (atoi p3 = none → (atoi p3).getD 0 = 0) := by
  refine ⟨?_, fun h => by simp [h], fun h => by simp [h]⟩
  have h4 : ¬ line.toList.length < 4 := by omega
  have hp0len : p0.length = 2 := by
    rcases hp0 with h | h <;>
    · have hh : p0 = (String.mk p0).toList := rfl
      rw [h] at hh
      simp [hh]
  simp only [parseB2Proposal, hsplit]
  rw [if_neg h4, if_neg (not_not_intro hcd), if_neg (by simp)]
  simp only [parseB2Fields]
  rw [hp0len, if_neg (by omega), if_neg (not_not_intro hp0)]

/-- Witness for C9 amended: a concrete five-field line with a malformed size
field parses with nil error and size 0. -/
theorem parseB2Proposal_atoi_discarded_witness :
    parseB2Proposal "FC EM ABC xy 7 0" emptyProposal =
      ParseResult.ok { emptyProposal with
        msgType := "EM"
        mid := "ABC"
        size := 0
        compressedSize := 7 } ∧
    (atoi "xy".toList = none → (atoi "xy".toList).getD 0 = 0) ∧
    (atoi "7".toList = none → (atoi "7".toList).getD 0 = 0) := by
  have h := parseB2Proposal_atoi_discarded "FC EM ABC xy 7 0" emptyProposal
    "EM".toList "ABC".toList "xy".toList "7".toList "0".toList
    (by decide) (by decide) (by decide) (by decide) (by decide)
  exact ⟨h.1, h.2.1, h.2.2⟩

/-! ### Claim C8 — TCPRig.dial early return -/

/-- Claim C8: TCPRig.dial returns unconditionally with a nil error before the
net.DialTimeout call is reached: the rig state (conn, tcpConn) is unchanged,
and any previously held connection is closed first. -/
theorem dial_early_return (r : TCPRigState) :
    (dial r).1 = none ∧ (dial r).2.1 = r ∧
    (r.conn.isSome = true → (dial r).2.2.head? = some RigAction.closeConn) ∧
    (r.conn = none → (dial r).2.2 = [RigAction.printOut "Koitetaan"]) := by
  refine ⟨rfl, rfl, fun h => ?_, fun h => ?_⟩ <;> simp [dial, h]

/-- Witness for C8: a rig with an old connection closes it first; a rig with
no connection only prints. -/
theorem dial_early_return_witness :
    (dial { conn := some 0, tcpConn := none, addr := "localhost:4532" }).2.2.head? =
      some RigAction.closeConn ∧
    (dial { conn := none, tcpConn := none, addr := "localhost:4532" }).2.2 =
      [RigAction.printOut "Koitetaan"] :=
  ⟨(dial_early_return _).2.2.1 (by decide), (dial_early_return _).2.2.2 (by decide)⟩

/-! ### Claim C5 — a second Exchange call is a no-op -/

/-- Claim C5: when the previous Exchange completed (Done: quitSent or
quitReceived is set), a further Exchange call returns the zero-value
TrafficStats and a nil error with an empty effect trace: the connection is
never read, written or closed and no mailbox-handler method runs. -/
theorem exchange_noop_when_done (env : ExchangeEnv) (fuel : Nat) (s : Session)
    (h : Session.Done s = true) :
    Exchange env fuel s = some (emptyStats, none, s, []) := by
  simp [Exchange, h]

/-- Witness for C5 at a concrete completed session. -/
theorem exchange_noop_when_done_witness :
    Exchange envDemo 3 sessDone = some (emptyStats, none, sessDone, []) :=
  exchange_noop_when_done envDemo 3 sessDone (by decide)

/-! ### Claims C6 and C10 — DirHandler.GetOutbound -/

/-- A pair surviving delPrivateHeaders never has the X-P2POnly key. -/
theorem mem_delPrivateHeaders_p2p (m : Message) (kv : String × String)
    (h : kv ∈ (delPrivateHeaders m).header) : keyEq kv.1 "X-P2POnly" = false := by
  simp only [delPrivateHeaders, headerDel, List.mem_filter, Bool.not_eq_true'] at h
  exact h.1.1.2

/-- With a non-empty forwarder list, every message GetOutbound delivers is
only-addressed to one of the forwarders. -/
theorem getOutbound_mem_of_fws (dq : String → Bool) (ior : Message → Address → Bool) :
    ∀ (all : List Message) (fws : List Address), fws ≠ [] →
      ∀ m ∈ GetOutbound dq ior all fws, ∃ fw ∈ fws, ior m fw = true := by
  intro all
  induction all with
  | nil => intro fws _ m hm; simp [GetOutbound] at hm
  | cons a rest ih =>
    intro fws hfw m hm
    have hlen : 0 < fws.length := by cases fws <;> simp_all
    unfold GetOutbound at hm
    by_cases hd : dq (Message.MID a)
    · rw [if_pos hd] at hm
      exact ih fws hfw m hm
    · rw [if_neg hd, if_pos hlen] at hm
      by_cases ha : fws.any (ior a) = true
      · rw [if_pos ha] at hm
        rcases List.mem_append.mp hm with h1 | h2
        · rcases List.mem_singleton.mp h1 with rfl
          exact List.any_eq_true.mp ha
        · exact ih fws hfw m h2
      · rw [if_neg ha] at hm
        rw [List.nil_append] at hm
        exact ih fws hfw m hm

/-- With an empty forwarder list, every delivered message has been through
delPrivateHeaders of some outbox message (and the X-P2POnly ones are
dropped). -/
theorem getOutbound_empty_fws_shape (dq : String → Bool) (ior : Message → Address → Bool) :
    ∀ (all : List Message), ∀ m ∈ GetOutbound dq ior all [],
      ∃ m0 ∈ all, headerGet m0.header "X-P2POnly" ≠ "true" ∧ m = delPrivateHeaders m0 := by
  intro all
  induction all with
  | nil => intro m hm; simp [GetOutbound] at hm
  | cons a rest ih =>
    intro m hm
    unfold GetOutbound at hm
    by_cases hd : dq (Message.MID a)
    · rw [if_pos hd] at hm
      rcases ih m hm with ⟨m0, h0, hp, he⟩
      exact ⟨m0, List.mem_cons_of_mem a h0, hp, he⟩
    · rw [if_neg hd] at hm
      rw [if_neg (by simp)] at hm
      by_cases hp : headerGet a.header "X-P2POnly" = "true"
      · rw [if_pos (by simpa using hp)] at hm
        rcases ih m hm with ⟨m0, h0, hp0, he⟩
        exact ⟨m0, List.mem_cons_of_mem a h0, hp0, he⟩
      · rw [if_neg (by simpa using hp)] at hm
        rcases List.mem_cons.mp hm with h1 | h2
        · exact ⟨a, List.mem_cons_self a rest, hp, h1⟩
        · rcases ih m h2 with ⟨m0, h0, hp0, he⟩
          exact ⟨m0, List.mem_cons_of_mem a h0, hp0, he⟩

/-- With a non-empty forwarder list, every delivered message is an element of
the outbox list itself (no header was touched). -/
theorem getOutbound_nonempty_fws_subset (dq : String → Bool) (ior : Message → Address → Bool) :
    ∀ (all : List Message) (fws : List Address), fws ≠ [] →
      ∀ m ∈ GetOutbound dq ior all fws, m ∈ all := by
  intro all
  induction all with
  | nil => intro fws _ m hm; simp [GetOutbound] at hm
  | cons a rest ih =>
    intro fws hfw m hm
    have hlen : 0 < fws.length := by cases fws <;> simp_all
    unfold GetOutbound at hm
    by_cases hd : dq (Message.MID a)
    · rw [if_pos hd] at hm
      exact List.mem_cons_of_mem a (ih fws hfw m hm)
    · rw [if_neg hd, if_pos hlen] at hm
      by_cases ha : fws.any (ior a) = true
      · rw [if_pos ha] at hm
        rcases List.mem_append.mp hm with h1 | h2
        · rcases List.mem_singleton.mp h1 with rfl
          exact List.mem_cons_self _ _
        · exact List.mem_cons_of_mem a (ih fws hfw m h2)
      · rw [if_neg ha, List.nil_append] at hm
        exact List.mem_cons_of_mem a (ih fws hfw m hm)

/-- Claim C6: GetOutbound delivers, for a non-empty forwarder list, only
messages that are only-addressed to one of the forwarders; for an empty
forwarder list (the remote is a CMS) no delivered message carries an
X-P2POnly header with value true. -/
theorem getOutbound_recipient_filter (dq : String → Bool) (ior : Message → Address → Bool)
    (all : List Message) (fws : List Address) :
    (fws ≠ [] → ∀ m ∈ GetOutbound dq ior all fws, ∃ fw ∈ fws, ior m fw = true) ∧
    (fws = [] → ∀ m ∈ GetOutbound dq ior all fws,
      ∀ kv ∈ m.header, ¬(keyEq kv.1 "X-P2POnly" = true ∧ kv.2 = "true")) := by
  constructor
  · exact fun hfw => getOutbound_mem_of_fws dq ior all fws hfw
  · rintro rfl m hm kv hkv
    rcases getOutbound_empty_fws_shape dq ior all m hm with ⟨m0, _, _, rfl⟩
    rw [mem_delPrivateHeaders_p2p m0 kv hkv]
    simp

/-- Witness for C6: a plain message delivered to a peer forwarder, and a
header pair of a CMS-mode delivery that is not an X-P2POnly true flag. -/
theorem getOutbound_recipient_filter_witness :
    (∃ fw ∈ [Address.mk "N0CALL"],
      (fun (_ : Message) (_ : Address) => true)
        { header := [("Mid", "MIDPLAIN"), ("X-Unread", "true"), ("Subject", "t")], body := [] }
        fw = true) ∧
    ¬(keyEq "Subject" "X-P2POnly" = true ∧ "t" = "true") := by
  constructor
  · exact (getOutbound_recipient_filter (fun _ => false) (fun _ _ => true)
      [{ header := [("Mid", "MIDPLAIN"), ("X-Unread", "true"), ("Subject", "t")], body := [] }]
      [Address.mk "N0CALL"]).1 (by decide)
      { header := [("Mid", "MIDPLAIN"), ("X-Unread", "true"), ("Subject", "t")], body := [] }
      (by decide)
  · exact (getOutbound_recipient_filter (fun _ => false) (fun _ _ => true)
      [{ header := [("Mid", "MIDP2P"), ("X-P2POnly", "true")], body := [] },
       { header := [("Mid", "MIDPLAIN"), ("X-Unread", "true"), ("Subject", "t")], body := [] }]
      []).2 rfl
      { header := [("Mid", "MIDPLAIN"), ("Subject", "t")], body := [] } (by decide)
      ("Subject", "t") (by decide)

/-- Claim C10: GetOutbound removes the private headers X-P2POnly, X-FilePath
and X-Unread only on the empty-forwarder-list path; with a non-empty
forwarder list every delivered message is returned exactly as it sits in the
outbox, all headers (private ones included) unchanged. -/
theorem getOutbound_private_headers (dq : String → Bool) (ior : Message → Address → Bool)
    (all : List Message) (fws : List Address) :
    (fws ≠ [] → ∀ m ∈ GetOutbound dq ior all fws, m ∈ all) ∧
    (fws = [] → ∀ m ∈ GetOutbound dq ior all fws, ∃ m0 ∈ all, m = delPrivateHeaders m0) := by
  constructor
  · exact fun hfw => getOutbound_nonempty_fws_subset dq ior all fws hfw
  · rintro rfl m hm
    rcases getOutbound_empty_fws_shape dq ior all m hm with ⟨m0, h0, _, he⟩
    exact ⟨m0, h0, he⟩

/-- Witness for C10: in peer mode the X-P2POnly message is returned with its
headers intact; in CMS mode the delivered message is the private-header
stripped form of an outbox message. -/
theorem getOutbound_private_headers_witness :
    ({ header := [("Mid", "MIDP2P"), ("X-P2POnly", "true")], body := [] } : Message) ∈
      [({ header := [("Mid", "MIDP2P"), ("X-P2POnly", "true")], body := [] } : Message),
       { header := [("Mid", "MIDPLAIN"), ("X-Unread", "true"), ("Subject", "t")], body := [] }] ∧
    (∃ m0 ∈ [({ header := [("Mid", "MIDP2P"), ("X-P2POnly", "true")], body := [] } : Message),
       { header := [("Mid", "MIDPLAIN"), ("X-Unread", "true"), ("Subject", "t")], body := [] }],
      ({ header := [("Mid", "MIDPLAIN"), ("Subject", "t")], body := [] } : Message) =
        delPrivateHeaders m0) := by
  constructor
  · exact (getOutbound_private_headers (fun _ => false) (fun _ _ => true)
      [{ header := [("Mid", "MIDP2P"), ("X-P2POnly", "true")], body := [] },
       { header := [("Mid", "MIDPLAIN"), ("X-Unread", "true"), ("Subject", "t")], body := [] }]
      [Address.mk "N0CALL"]).1 (by decide)
      { header := [("Mid", "MIDP2P"), ("X-P2POnly", "true")], body := [] }
      (by decide)
  · exact (getOutbound_private_headers (fun _ => false) (fun _ _ => true)
      [{ header := [("Mid", "MIDP2P"), ("X-P2POnly", "true")], body := [] },
       { header := [("Mid", "MIDPLAIN"), ("X-Unread", "true"), ("Subject", "t")], body := [] }]
      []).2 rfl
      { header := [("Mid", "MIDPLAIN"), ("Subject", "t")], body := [] }
      (by decide)

/-! ### Claim C2 — who takes the first turn of the Exchange loop -/

/-- fwAdjust only touches localFW: the master flag is preserved. -/
theorem fwAdjust_master (env : ExchangeEnv) (s : Session) :
    (fwAdjust env s).master = s.master := by
  unfold fwAdjust; split <;> rfl

/-- fwAdjust only touches localFW: Done is preserved. -/
theorem fwAdjust_Done (env : ExchangeEnv) (s : Session) :
    Session.Done (fwAdjust env s) = Session.Done s := by
  unfold fwAdjust Session.Done; split <;> rfl

/-- The kind of the turn executed when the loop-local myTurn flag is b. -/
def turnKindOf (b : Bool) : TurnKind := if b then TurnKind.outbound else TurnKind.inbound

/-- The two turn kinds produced by opposite myTurn values differ. -/
theorem turnKindOf_not (b : Bool) : turnKindOf (!b) ≠ turnKindOf b := by
  cases b <;> decide

/-- Behaviour of the Exchange turn loop trace: it starts with the kind
selected by the initial myTurn value, strictly alternates, ends in a Done
session when no turn error cut it short, and is non-empty whenever the loop
is entered with Done still false. -/
theorem turnLoop_trace (env : ExchangeEnv) :
    ∀ (fuel i : Nat) (b : Bool) (s : Session) (out : Session × Option GoError × List TurnKind),
      turnLoop env fuel i b s = some out →
      (out.2.2.head? = none ∨ out.2.2.head? = some (turnKindOf b)) ∧
      List.Chain' (fun x y => x ≠ y) out.2.2 ∧
      (out.2.1 = none → Session.Done out.1 = true) ∧
      (Session.Done s = false → out.2.2 ≠ []) := by
  intro fuel
  induction fuel with
  | zero =>
    intro i b s out h
    unfold turnLoop at h
    by_cases hds : Session.Done s = true
    · rw [if_pos hds] at h
      rcases Option.some.inj h with rfl
      exact ⟨Or.inl rfl, List.chain'_nil, fun _ => hds, fun hf => by rw [hf] at hds; cases hds⟩
    · rw [if_neg hds] at h
      cases h
  | succ fuel ih =>
    intro i b s out h
    unfold turnLoop at h
    by_cases hds : Session.Done s = true
    · rw [if_pos hds] at h
      rcases Option.some.inj h with rfl
      exact ⟨Or.inl rfl, List.chain'_nil, fun _ => hds, fun hf => by rw [hf] at hds; cases hds⟩
    · rw [if_neg hds] at h
      simp only at h
      rcases hr2 : (if b then env.outboundRes i else env.inboundRes i).2 with _ | e
      · rw [hr2] at h
        rcases hrec : turnLoop env fuel (i + 1) (!b)
            (if b then { s with quitSent := (if b then env.outboundRes i else env.inboundRes i).1 }
             else { s with quitReceived := (if b then env.outboundRes i else env.inboundRes i).1 }) with
          _ | out'
        · rw [hrec] at h; cases h
        · rw [hrec] at h
          rcases out' with ⟨s2, e2, ks⟩
          rcases Option.some.inj h with rfl
          rcases ih (i + 1) (!b) _ _ hrec with ⟨ihh, ihc, ihd, _⟩
          refine ⟨Or.inr ?_, ?_, ?_, ?_⟩
          · show some (if b then TurnKind.outbound else TurnKind.inbound) = _
            rfl
          · rw [List.chain'_cons']
            constructor
            · intro y hy
              rcases ihh with h0 | h0
              · rw [h0] at hy; cases hy
              · rw [h0] at hy
                rcases Option.some.inj hy with rfl
                exact (turnKindOf_not b).symm
            · exact ihc
          · exact fun he => ihd he
          · intro _; exact List.cons_ne_nil _ _
      · rw [hr2] at h
        rcases Option.some.inj h with rfl
        refine ⟨Or.inr rfl, ?_, ?_, ?_⟩
        · exact List.chain'_singleton _
        · intro he; cases he
        · intro _; exact List.cons_ne_nil _ _

/-- Only turn actions survive the actionTurn projection of the traces built
by exchangeBody and the deferred closure. -/
theorem filterMap_actionTurn_map (ks : List TurnKind) :
    (ks.map SessAction.turn).filterMap actionTurn = ks := by
  induction ks with
  | nil => rfl
  | cons k t ih => simp [actionTurn, ih]

/-- Claim C2 counterexample: a fresh session configured as master
(IsMaster(true)) with a successful handshake executes handleInbound, not
handleOutbound, as its first and only turn: the loop starts at
myTurn = !master. -/
theorem exchange_master_first_turn_counterexample :
    sessLive.master = true ∧ Session.Done sessLive = false ∧
    envDemo.prepareRes = none ∧ envDemo.handshakeRes = none ∧
    exchangeTurns (Exchange envDemo 5 sessLive) = some [TurnKind.inbound] := by
  refine ⟨rfl, rfl, rfl, rfl, ?_⟩
  decide

/-- A single non-turn action contributes nothing to the turn projection. -/
theorem filterMap_actionTurn_if (c : Prop) [Decidable c] (a : SessAction)
    (ha : actionTurn a = none) :
    (if c then [a] else []).filterMap actionTurn = [] := by
  split <;> simp [List.filterMap_cons, ha]

/-- The deferred closure emits no turn actions. -/
theorem exchangeDeferred_no_turn : ∀ (err : Option GoError),
    (exchangeDeferred err).2.filterMap actionTurn = []
  | none => rfl
  | some e => by
    by_cases h1 : e = GoError.eof ∨ e = GoError.unexpectedEOF
    · simp [exchangeDeferred, h1, actionTurn]
    · by_cases h2 : e = GoError.netClosed
      · simp [exchangeDeferred, h1, h2, actionTurn]
      · simp [exchangeDeferred, h1, h2, actionTurn]

/-- The deferred closure never turns an error into success. -/
theorem exchangeDeferred_some_isSome (e : GoError) :
    (exchangeDeferred (some e)).1.isSome = true := by
  by_cases h1 : e = GoError.eof ∨ e = GoError.unexpectedEOF
  · simp [exchangeDeferred, h1]
  · by_cases h2 : e = GoError.netClosed
    · simp [exchangeDeferred, h1, h2]
    · simp [exchangeDeferred, h1, h2]

/-- The composition of the turn projection with the turn injection is the
identity on traces. -/
theorem filterMap_actionTurn_comp (ks : List TurnKind) :
    List.filterMap (actionTurn ∘ SessAction.turn) ks = ks := by
  induction ks with
  | nil => rfl
  | cons k t ih =>
    rw [List.filterMap_cons]
    simp only [Function.comp_apply]
    rw [show actionTurn (SessAction.turn k) = some k from rfl, ih]

/-- Claim C2 amended: in Session.Exchange, after a successful handshake on a
session that is not yet done, a session configured as master (IsMaster(true))
executes an INBOUND turn (handleInbound) first — the loop starts at
myTurn = !master, so the non-master side takes the first outbound turn — and
subsequent turns strictly alternate between inbound and outbound until Done()
becomes true (when no error ends the exchange first). -/
theorem exchange_master_turn_order (env : ExchangeEnv) (fuel : Nat) (s : Session)
    (r : TrafficStats × Option GoError × Session × List SessAction)
    (hr : Exchange env fuel s = some r)
    (hnd : Session.Done s = false)
    (hprep : env.prepareRes = none)
    (hhs : env.handshakeRes = none)
    (hm : s.master = true) :
    (r.2.2.2.filterMap actionTurn).head? = some TurnKind.inbound ∧
    List.Chain' (fun x y => x ≠ y) (r.2.2.2.filterMap actionTurn) ∧
    (r.2.1 = none → Session.Done r.2.2.1 = true) := by
  unfold Exchange at hr
  rw [if_neg (by simp [hnd])] at hr
  unfold exchangeBody at hr
  rw [if_neg (by simp [hprep])] at hr
  rw [hhs] at hr
  simp only at hr
  have hbm : (!(fwAdjust env s).master) = false := by
    rw [fwAdjust_master, hm]; rfl
  rw [hbm] at hr
  rcases hloop : turnLoop env fuel 0 false (fwAdjust env s) with _ | ⟨s2, e2, ks⟩
  · rw [hloop] at hr
    simp only [exchangeAfterLoop, exchangeFinish] at hr
    cases hr
  · rw [hloop] at hr
    rcases turnLoop_trace env fuel 0 false (fwAdjust env s) (s2, e2, ks) hloop with
      ⟨hhead, hchain, hdone, hne⟩
    have hks : ks ≠ [] := hne (by rw [fwAdjust_Done]; exact hnd)
    have hhead' : ks.head? = some TurnKind.inbound := by
      rcases hhead with h0 | h0
      · rw [List.head?_eq_none_iff] at h0; exact absurd h0 hks
      · exact h0
    have hchain' : List.Chain' (fun x y => x ≠ y) ks := hchain
    rcases e2 with _ | e
    · simp only [exchangeAfterLoop, exchangeFinish] at hr
      rcases Option.some.inj hr.symm with rfl
      refine ⟨?_, ?_, fun _ => hdone rfl⟩
      · simp [List.filterMap_append, filterMap_actionTurn_map, filterMap_actionTurn_comp,
          exchangeDeferred_no_turn, filterMap_actionTurn_if, actionTurn, hhead']
      · simp [List.filterMap_append, filterMap_actionTurn_map, filterMap_actionTurn_comp,
          exchangeDeferred_no_turn, filterMap_actionTurn_if, actionTurn]
        exact hchain'
    · simp only [exchangeAfterLoop, exchangeFinish] at hr
      rcases Option.some.inj hr.symm with rfl
      refine ⟨?_, ?_, ?_⟩
      · simp [List.filterMap_append, filterMap_actionTurn_map, filterMap_actionTurn_comp,
          exchangeDeferred_no_turn, filterMap_actionTurn_if, actionTurn, hhead']
      · simp [List.filterMap_append, filterMap_actionTurn_map, filterMap_actionTurn_comp,
          exchangeDeferred_no_turn, filterMap_actionTurn_if, actionTurn]
        exact hchain'
      · intro he
        exfalso
        simp only at he
        have hs := exchangeDeferred_some_isSome e
        rw [he] at hs
        cases hs

/-- Witness for C2 amended: the concrete master session executes exactly one
turn, an inbound one, and ends Done. -/
theorem exchange_master_turn_order_witness :
    (([SessAction.prepare, SessAction.handshake, SessAction.turn TurnKind.inbound,
        SessAction.close, SessAction.close].filterMap actionTurn).head? =
      some TurnKind.inbound) ∧
    List.Chain' (fun x y => x ≠ y)
      ([SessAction.prepare, SessAction.handshake, SessAction.turn TurnKind.inbound,
        SessAction.close, SessAction.close].filterMap actionTurn) ∧
    ((none : Option GoError) = none →
      Session.Done { sessLive with quitReceived := true } = true) :=
  exchange_master_turn_order envDemo 5 sessLive
    (emptyStats, none, { sessLive with quitReceived := true },
      [SessAction.prepare, SessAction.handshake, SessAction.turn TurnKind.inbound,
        SessAction.close, SessAction.close])
    (by decide) rfl rfl rfl rfl

/-! ### Claim C3 — error mapping of the deferred Exchange closure -/

/-- Claim C3: when a step of Exchange fails with io.EOF, io.ErrUnexpectedEOF
or net.ErrClosed, Exchange returns ErrConnLost and writes no *** line (the
connection is just closed); for every other non-nil error Exchange sets a
one-minute deadline, writes the *** error line to the peer, closes the
connection and returns that error. -/
theorem exchange_error_mapping (env : ExchangeEnv) (fuel : Nat) (s : Session)
    (stats : TrafficStats) (e : GoError) (s2 : Session) (acts : List SessAction) (reg : Bool)
    (hnd : Session.Done s = false)
    (hb : exchangeBody env fuel (fwAdjust env s) = some (stats, some e, s2, acts, reg)) :
    ((e = GoError.eof ∨ e = GoError.unexpectedEOF ∨ e = GoError.netClosed) →
      Exchange env fuel s =
        some (stats, some GoError.connLost, s2,
          acts ++ (if reg then [SessAction.setRobust false] else []) ++ [SessAction.close])) ∧
    (e ≠ GoError.eof → e ≠ GoError.unexpectedEOF → e ≠ GoError.netClosed →
      Exchange env fuel s =
        some (stats, some e, s2,
          acts ++ (if reg then [SessAction.setRobust false] else []) ++
            [SessAction.setDeadline 60,
              SessAction.write ("*** " ++ GoError.message e ++ "\r\n"), SessAction.close])) := by
  constructor
  · intro hcase
    unfold Exchange
    rw [if_neg (by simp [hnd]), hb]
    simp only [exchangeFinish]
    rcases hcase with rfl | rfl | rfl <;> rfl
  · intro h1 h2 h3
    unfold Exchange
    rw [if_neg (by simp [hnd]), hb]
    simp only [exchangeFinish]
    rw [show exchangeDeferred (some e) =
      (some e,
        [SessAction.setDeadline 60,
          SessAction.write ("*** " ++ GoError.message e ++ "\r\n"), SessAction.close]) from by
      simp only [exchangeDeferred]
      rw [if_neg (by simp [h1, h2]), if_neg h3]]

/-- Witness for C3: a Prepare failure with io.EOF surfaces as ErrConnLost
with no *** emission, and an ordinary Prepare failure is echoed to the peer
as a *** line under a one-minute deadline before the close. -/
theorem exchange_error_mapping_witness :
    Exchange envEOFDemo 3 sessLive =
      some (emptyStats, some GoError.connLost, sessLive,
        [SessAction.prepare, SessAction.close]) ∧
    Exchange envBoomDemo 3 sessLive =
      some (emptyStats, some (GoError.other "boom"), sessLive,
        [SessAction.prepare, SessAction.setDeadline 60,
          SessAction.write "*** boom\r\n", SessAction.close]) := by
  constructor
  · exact (exchange_error_mapping envEOFDemo 3 sessLive emptyStats GoError.eof sessLive
      [SessAction.prepare] false (by decide) (by decide)).1 (Or.inl rfl)
  · exact (exchange_error_mapping envBoomDemo 3 sessLive emptyStats (GoError.other "boom")
      sessLive [SessAction.prepare] false (by decide) (by decide)).2
      (by decide) (by decide) (by decide)

/-! ### Claim C1 — the sortProposals ordering law -/

/-- Go string comparison is irreflexive. -/
theorem charsLess_self : ∀ (l : List Char), charsLess l l = false
  | [] => rfl
  | a :: as => by
    unfold charsLess
    rw [if_neg (lt_irrefl _), if_neg (lt_irrefl _)]
    exact charsLess_self as

/-- Go string comparison is asymmetric. -/
theorem charsLess_asymm : ∀ (a b : List Char), charsLess a b = true → charsLess b a = false
  | [], [] => by intro h; cases h
  | [], _ :: _ => by intro _; rfl
  | _ :: _, [] => by intro h; cases h
  | x :: xs, y :: ys => by
    intro h
    unfold charsLess at h ⊢
    by_cases h1 : x.toNat < y.toNat
    · rw [if_neg (by omega), if_pos h1]
    · rw [if_neg h1] at h
      by_cases h2 : y.toNat < x.toNat
      · rw [if_pos h2] at h
        cases h
      · rw [if_neg h2] at h
        rw [if_neg h2, if_neg h1]
        exact charsLess_asymm xs ys h

/-- The complement of Go string comparison is transitive. -/
theorem charsLess_neg_trans : ∀ (a b c : List Char),
    charsLess b a = false → charsLess c b = false → charsLess c a = false
  | [], _, [] => fun _ _ => rfl
  | [], _, _ :: _ => fun _ _ => rfl
  | _ :: _, [], [] => fun h1 _ => by simp [charsLess] at h1
  | _ :: _, _ :: _, [] => fun _ h2 => by simp [charsLess] at h2
  | _ :: _, [], _ :: _ => fun h1 _ => by simp [charsLess] at h1
  | x :: xs, y :: ys, z :: zs => fun h1 h2 => by
    unfold charsLess at h1 h2 ⊢
    by_cases hyx : y.toNat < x.toNat
    · rw [if_pos hyx] at h1; cases h1
    · rw [if_neg hyx] at h1
      by_cases hzy : z.toNat < y.toNat
      · rw [if_pos hzy] at h2; cases h2
      · rw [if_neg hzy] at h2
        rw [if_neg (by omega : ¬ z.toNat < x.toNat)]
        by_cases hxz : x.toNat < z.toNat
        · rw [if_pos hxz]
        · rw [if_neg hxz]
          rw [if_neg (by omega : ¬ x.toNat < y.toNat)] at h1
          rw [if_neg (by omega : ¬ y.toNat < z.toNat)] at h2
          exact charsLess_neg_trans xs ys zs h1 h2

/-- bySize.Less is false exactly when the other element is strictly smaller
in compressed size, or the sizes agree and the MID is not smaller. -/
theorem bySizeLess_eq_false_iff (x y : Proposal) :
    bySizeLess x y = false ↔
      (y.compressedSize < x.compressedSize ∨
        (x.compressedSize = y.compressedSize ∧
          charsLess x.mid.toList y.mid.toList = false)) := by
  unfold bySizeLess goStrLess
  by_cases h : x.compressedSize = y.compressedSize
  · rw [if_neg (by simp [h])]
    constructor
    · intro hc; exact Or.inr ⟨h, hc⟩
    · rintro (hlt | ⟨_, hc⟩)
      · omega
      · exact hc
  · rw [if_pos h, decide_eq_false_iff_not]
    constructor
    · intro hn; left; omega
    · rintro (hlt | ⟨heq, _⟩)
      · omega
      · exact absurd heq h

/-- bySize.Less is asymmetric. -/
theorem bySizeLess_asymm (x y : Proposal) (h : bySizeLess x y = true) :
    bySizeLess y x = false := by
  unfold bySizeLess goStrLess at h ⊢
  by_cases he : x.compressedSize = y.compressedSize
  · rw [if_neg (by simp [he])] at h
    rw [if_neg (by simp [he])]
    exact charsLess_asymm _ _ h
  · rw [if_pos he] at h
    have hlt := of_decide_eq_true h
    rw [if_pos (show y.compressedSize ≠ x.compressedSize by omega)]
    exact decide_eq_false (by omega)

/-- The non-strict bySize order is transitive. -/
theorem sizeLE_trans : ∀ (a b c : Proposal),
    sizeLE a b = true → sizeLE b c = true → sizeLE a c = true := by
  intro a b c h1 h2
  unfold sizeLE at h1 h2 ⊢
  rw [Bool.not_eq_true'] at h1 h2 ⊢
  rw [bySizeLess_eq_false_iff] at h1 h2 ⊢
  rcases h1 with h1 | ⟨h1e, h1c⟩ <;> rcases h2 with h2 | ⟨h2e, h2c⟩
  · left; omega
  · left; omega
  · left; omega
  · exact Or.inr ⟨by omega, charsLess_neg_trans _ _ _ h1c h2c⟩

/-- The non-strict bySize order is total. -/
theorem sizeLE_total : ∀ (a b : Proposal), (sizeLE a b || sizeLE b a) = true := by
  intro a b
  unfold sizeLE
  rcases hx : bySizeLess b a with _ | _
  · simp
  · simp [bySizeLess_asymm b a hx]

/-- The non-strict byPrecedence order spelled out. -/
theorem precLE_iff (a b : Proposal) :
    precLE a b = true ↔ a.precedence ≤ b.precedence := by
  unfold precLE byPrecedenceLess
  simp only [Bool.not_eq_true', decide_eq_false_iff_not, not_lt]

/-- The non-strict byPrecedence order is transitive. -/
theorem precLE_trans : ∀ (a b c : Proposal),
    precLE a b = true → precLE b c = true → precLE a c = true := by
  intro a b c h1 h2
  rw [precLE_iff] at h1 h2 ⊢
  omega

/-- The non-strict byPrecedence order is total. -/
theorem precLE_total : ∀ (a b : Proposal), (precLE a b || precLE b a) = true := by
  intro a b
  rw [Bool.or_eq_true, precLE_iff, precLE_iff]
  omega

/-- What a true enumLE comparison gives: the underlying comparison holds, and
between equivalent elements the original positions are ordered. -/
theorem enumLE_true_elim {le : Proposal → Proposal → Bool} (x y : Nat × Proposal)
    (h : List.enumLE le x y = true) :
    le x.2 y.2 = true ∧ (le y.2 x.2 = true → x.1 ≤ y.1) := by
  unfold List.enumLE at h
  by_cases h1 : le x.2 y.2 = true
  · refine ⟨h1, fun h2 => ?_⟩
    rw [if_pos h1, if_pos h2] at h
    exact of_decide_eq_true h
  · rw [if_neg h1] at h
    cases h

/-- Membership in an enumeration pins the element to its position. -/
theorem mem_enum_getElem {l : List Proposal} {x : Nat × Proposal} (h : x ∈ l.enum) :
    ∃ hh : x.1 < l.length, l.get ⟨x.1, hh⟩ = x.2 := by
  rw [List.mem_enum_iff_getElem?, List.getElem?_eq_some_iff] at h
  rcases h with ⟨hh, he⟩
  exact ⟨hh, he⟩

/-- The heart of the sort law: in a list sorted by sizeLE, any two entries
whose positions are compared by enumLE precLE satisfy the combined
precedence-size-MID order. -/
theorem sortProposals_key (l : List Proposal)
    (hp : l.Pairwise (fun a b => sizeLE a b = true)) :
    ∀ (x y : Nat × Proposal), x ∈ l.enum → y ∈ l.enum →
      List.enumLE precLE x y = true →
      x.2.precedence ≤ y.2.precedence ∧
      (x.2.precedence = y.2.precedence →
        x.2.compressedSize ≤ y.2.compressedSize ∧
        (x.2.compressedSize = y.2.compressedSize →
          goStrLess y.2.mid x.2.mid = false)) := by
  intro x y hx hy he
  rcases enumLE_true_elim x y he with ⟨hab, himp⟩
  refine ⟨(precLE_iff _ _).mp hab, fun heq => ?_⟩
  have hba : precLE y.2 x.2 = true := (precLE_iff _ _).mpr (by omega)
  have hn := himp hba
  rcases mem_enum_getElem hx with ⟨hx1, hx2⟩
  rcases mem_enum_getElem hy with ⟨hy1, hy2⟩
  by_cases hnn : x.1 = y.1
  · have hxy : x.2 = y.2 := by
      rw [← hx2, ← hy2]
      congr 1
      exact Fin.ext hnn
    rw [hxy]
    exact ⟨le_refl _, fun _ => charsLess_self _⟩
  · have hlt : x.1 < y.1 := by omega
    have hsz := List.pairwise_iff_get.mp hp ⟨x.1, hx1⟩ ⟨y.1, hy1⟩ hlt
    rw [hx2, hy2] at hsz
    unfold sizeLE at hsz
    rw [Bool.not_eq_true', bySizeLess_eq_false_iff] at hsz
    rcases hsz with h | ⟨he2, hc⟩
    · exact ⟨by omega, fun hcs => by omega⟩
    · exact ⟨by omega, fun _ => hc⟩

/-- Claim C1: sortProposals permutes the proposal list so that precedence is
ascending, compressed size is ascending within equal precedence, and the MID
(in Go string order) is ascending within equal compressed size. -/
theorem sortProposals_spec (props : List Proposal) :
    List.Perm (sortProposals props) props ∧
    ∀ (i j : Fin (sortProposals props).length), (i : Nat) < (j : Nat) →
      ((sortProposals props).get i).precedence ≤ ((sortProposals props).get j).precedence ∧
      (((sortProposals props).get i).precedence = ((sortProposals props).get j).precedence →
        ((sortProposals props).get i).compressedSize ≤
          ((sortProposals props).get j).compressedSize ∧
        (((sortProposals props).get i).compressedSize =
            ((sortProposals props).get j).compressedSize →
          goStrLess ((sortProposals props).get j).mid
            ((sortProposals props).get i).mid = false)) := by
  constructor
  · exact (List.mergeSort_perm (props.mergeSort sizeLE) precLE).trans
      (List.mergeSort_perm props sizeLE)
  · have hp1 : (props.mergeSort sizeLE).Pairwise (fun a b => sizeLE a b = true) :=
      List.sorted_mergeSort sizeLE_trans sizeLE_total props
    have hE : (List.mergeSort ((props.mergeSort sizeLE).enum) (List.enumLE precLE)).map
        (fun p => p.2) = sortProposals props := List.mergeSort_enum
    have hEs : (List.mergeSort ((props.mergeSort sizeLE).enum) (List.enumLE precLE)).Pairwise
        (fun x y => List.enumLE precLE x y = true) :=
      List.sorted_mergeSort (List.enumLE_trans precLE_trans) (List.enumLE_total precLE_total) _
    have hEs2 : (List.mergeSort ((props.mergeSort sizeLE).enum) (List.enumLE precLE)).Pairwise
        (fun x y => x.2.precedence ≤ y.2.precedence ∧
          (x.2.precedence = y.2.precedence →
            x.2.compressedSize ≤ y.2.compressedSize ∧
            (x.2.compressedSize = y.2.compressedSize →
              goStrLess y.2.mid x.2.mid = false))) := by
      refine List.Pairwise.imp_of_mem ?_ hEs
      intro a b ha hb hr
      exact sortProposals_key (props.mergeSort sizeLE) hp1 a b
        (List.mem_mergeSort.mp ha) (List.mem_mergeSort.mp hb) hr
    have hout : (sortProposals props).Pairwise
        (fun a b => a.precedence ≤ b.precedence ∧
          (a.precedence = b.precedence →
            a.compressedSize ≤ b.compressedSize ∧
            (a.compressedSize = b.compressedSize → goStrLess b.mid a.mid = false))) := by
      rw [← hE]
      exact List.Pairwise.map (fun p : Nat × Proposal => p.2) (fun a b h => h) hEs2
    intro i j hij
    exact List.pairwise_iff_get.mp hout i j hij

/-- A routine proposal with MID A and compressed size 5. -/
def propMidA : Proposal := { emptyProposal with mid := "A", compressedSize := 5 }

/-- A routine proposal with MID B and compressed size 5. -/
def propMidB : Proposal := { emptyProposal with mid := "B", compressedSize := 5 }

/-- Witness for C1: on two routine proposals of equal compressed size the
sorted list is a permutation and the adjacent pair satisfies the precedence,
size and MID clauses of the sort law. -/
theorem sortProposals_spec_witness :
    List.Perm (sortProposals [propMidA, propMidB]) [propMidA, propMidB] ∧
    propMidA.precedence ≤ propMidB.precedence ∧
    propMidA.compressedSize ≤ propMidB.compressedSize ∧
    goStrLess propMidB.mid propMidA.mid = false := by
  have hs1 : [propMidA, propMidB].mergeSort sizeLE = [propMidA, propMidB] :=
    List.mergeSort_of_sorted (by decide)
  have hs2 : [propMidA, propMidB].mergeSort precLE = [propMidA, propMidB] :=
    List.mergeSort_of_sorted (by decide)
  have hsorted : sortProposals [propMidA, propMidB] = [propMidA, propMidB] := by
    show ([propMidA, propMidB].mergeSort sizeLE).mergeSort precLE = [propMidA, propMidB]
    rw [hs1, hs2]
  have hb0 : 0 < (sortProposals [propMidA, propMidB]).length := by rw [hsorted]; decide
  have hb1 : 1 < (sortProposals [propMidA, propMidB]).length := by rw [hsorted]; decide
  have h := (sortProposals_spec [propMidA, propMidB]).2 ⟨0, hb0⟩ ⟨1, hb1⟩ Nat.zero_lt_one
  have e0 : (sortProposals [propMidA, propMidB]).get ⟨0, hb0⟩ = propMidA := by
    have h1 : (sortProposals [propMidA, propMidB])[0]? = some propMidA := by
      rw [hsorted]; rfl
    rw [List.getElem?_eq_getElem hb0] at h1
    exact Option.some.inj h1
  have e1 : (sortProposals [propMidA, propMidB]).get ⟨1, hb1⟩ = propMidB := by
    have h1 : (sortProposals [propMidA, propMidB])[1]? = some propMidB := by
      rw [hsorted]; rfl
    rw [List.getElem?_eq_getElem hb1] at h1
    exact Option.some.inj h1
  rw [e0, e1] at h
  exact ⟨(sortProposals_spec [propMidA, propMidB]).1, h.1,
    (h.2 (by decide)).1, (h.2 (by decide)).2 (by decide)⟩
